import Mathlib

/-!
Verification of the company-data-scraper pipeline: a shallow embedding of
the pure logic of `scraping_url.py` and `get_email.py`, with external
effects (HTTP, DNS, HTML parsing by BeautifulSoup) represented as oracle
parameters, and external string libraries (tldextract, urljoin) modelled
over the URL shapes the program exercises.

Conventions: Python strings are Lean `String` (`List Char` underneath);
Python `None` is `Option.none`; functions that swallow exceptions are
total functions returning `Option`.
-/

set_option maxRecDepth 10000

namespace Scraper

/-! ### Basic string helpers (Python semantics) -/

/-- Python `needle in hay` (contiguous substring test) on character lists. -/
def listSub (needle : List Char) : List Char → Bool
  | [] => needle.isEmpty
  | c :: cs => needle.isPrefixOf (c :: cs) || listSub needle cs

/-- Python `needle in hay` on strings. -/
def containsSub (hay needle : String) : Bool :=
  listSub needle.data hay.data

/-- Python `s.endswith(suffix)` on strings. -/
def endsWith (s suffix : String) : Bool :=
  suffix.data.isSuffixOf s.data

/-- Python `s.lower()` restricted to the ASCII letters the pipeline handles. -/
def lowerStr (s : String) : String :=
  ⟨s.data.map Char.toLower⟩

/-- Python `s.split(sep)` for a one-character separator, on character
lists (structural, so it evaluates inside the kernel). -/
def splitOnChar (sep : Char) : List Char → List (List Char)
  | [] => [[]]
  | c :: cs =>
    let r := splitOnChar sep cs
    if c == sep then [] :: r
    else
      match r with
      | [] => [[c]]
      | p :: ps => (c :: p) :: ps

/-- Python `s.split(sep)` for a one-character separator, on strings. -/
def pySplit (s : String) (sep : Char) : List String :=
  (splitOnChar sep s.data).map (fun l => (⟨l⟩ : String))

theorem listSub_nil (hay : List Char) : listSub [] hay = true := by
  cases hay <;> simp [listSub, List.isPrefixOf]

/-! ### clean_name (scraping_url.py)

`clean_name` lowercases, deletes the legal-entity tokens
`inc|llc|ltd|corp|limited|company|co` matched as whole regex words
(Python `\b` boundaries), and finally deletes every character outside
`[a-z0-9]`. -/

/-- Python regex word character (`\w`), over the ASCII inputs the pipeline handles. -/
def isWordChar (c : Char) : Bool := c.isAlphanum || c == '_'

/-- The alternatives of `\b(inc|llc|ltd|corp|limited|company|co)\b`, in
Python alternation order. -/
def legalTokens : List (List Char) :=
  [ "inc".data, "llc".data, "ltd".data, "corp".data, "limited".data,
    "company".data, "co".data]

/-- Match one alternative at the head of `s`: the literal must be a prefix
and the following character (if any) must not be a word character (the
trailing `\b`; every alternative ends in a word character). Returns the
rest of the string after the match. -/
def tokenMatch (t s : List Char) : Option (List Char) :=
  if t.isPrefixOf s then
    match s.drop t.length with
    | [] => some []
    | c :: cs => if isWordChar c then none else some (c :: cs)
  else none

/-- First alternative that matches at the head of `s`, in alternation order. -/
def firstTokenMatch : List (List Char) → List Char → Option (List Char)
  | [], _ => none
  | t :: ts, s =>
    match tokenMatch t s with
    | some rest => some rest
    | none => firstTokenMatch ts s

/-- Left-to-right scan of `re.sub(r'\b(inc|llc|ltd|corp|limited|company|co)\b', '', s)`.
`prevWord` records whether the previous character of the original string is
a word character (the leading `\b`; every alternative starts with a word
character, so a match can only begin after a non-word character or at the
start). `fuel` bounds the recursion by the string length; every step
consumes at least one character, so the fuel never runs out when started
at `s.length`. -/
def stripLegalAux : Nat → Bool → List Char → List Char
  | 0, _, s => s
  | _ + 1, _, [] => []
  | fuel + 1, prevWord, c :: cs =>
    if prevWord then c :: stripLegalAux fuel (isWordChar c) cs
    else
      match firstTokenMatch legalTokens (c :: cs) with
      | some rest => stripLegalAux fuel true rest
      | none => c :: stripLegalAux fuel (isWordChar c) cs

/-- `clean_name` from scraping_url.py. -/
def clean_name (name : String) : String :=
  if name = "" then ""
  else
    let lowered := name.data.map Char.toLower
    let stripped := stripLegalAux lowered.length false lowered
    ⟨stripped.filter (fun c => c.isLower || c.isDigit)⟩

/-! ### Domain matcher and suggestion client (`_sync_clearbit`, scraping_url.py)

The HTTP exchange is represented by an `ApiResult` oracle value; the
matching loop over the decoded suggestion list is the pure function
`findMatch`. -/

/-- One suggestion object of the Clearbit autocomplete response
(`item.get('domain','')` / `item.get('name','')`). -/
structure Suggestion where
  domain : String
  name : String

/-- Python `domain.replace('.', '')`. -/
def removeDots (s : String) : String :=
  ⟨s.data.filter (fun c => !(c == '.'))⟩

/-- First matching rule of `_sync_clearbit`:
`clean_query in domain.replace('.', '')`. -/
def rule1 (q : String) (item : Suggestion) : Bool :=
  containsSub (removeDots item.domain) q

/-- Second matching rule of `_sync_clearbit`:
`clean_query in item_name or item_name in clean_query`. -/
def rule2 (q : String) (item : Suggestion) : Bool :=
  containsSub (clean_name item.name) q || containsSub q (clean_name item.name)

/-- A candidate matches if rule 1 or rule 2 accepts it. -/
def matchesItem (q : String) (item : Suggestion) : Bool :=
  rule1 q item || rule2 q item

/-- The `for item in data[:3]` loop body of `_sync_clearbit`, already
restricted to the sliced list. -/
def findMatchGo (q : String) : List Suggestion → Option String
  | [] => none
  | item :: rest =>
    if rule1 q item then some ("https://" ++ item.domain)
    else if rule2 q item then some ("https://" ++ item.domain)
    else findMatchGo q rest

/-- The matching stage of `_sync_clearbit`: clean the query, slice the
suggestion list to the first 3 items, scan in order. -/
def findMatch (companyName : String) (data : List Suggestion) : Option String :=
  findMatchGo (clean_name companyName) (data.take 3)

/-- Outcome of the HTTP GET against the suggestion endpoint.
`transportError` covers every exception raised by the request (timeout,
DNS failure, connection refused); `response status body` is a completed
HTTP response, with `body = none` when `response.json()` fails
(malformed or absent JSON, or a non-list payload). -/
inductive ApiResult where
  | transportError : ApiResult
  | response (status : Nat) (body : Option (List Suggestion)) : ApiResult

/-- `_sync_clearbit` from scraping_url.py, with the HTTP exchange
represented by its `ApiResult`. The bare `except: pass` makes every
failure fall through to `return None`. -/
def sync_clearbit (companyName : String) (api : ApiResult) : Option String :=
  match api with
  | ApiResult.transportError => none
  | ApiResult.response status body =>
    if status = 200 then
      match body with
      | none => none
      | some data => if data.isEmpty then none else findMatch companyName data
    else none

/-- `get_urls_api` from scraping_url.py. `resolver` is the per-name result
of `fetch_api` (which wraps `_sync_clearbit`); `asyncio.gather` returns
results in task order, so the gathered list is the map of the resolver
over the input. A result is written into slot `i` only when truthy
(`if url:`), i.e. not `None` and not the empty string. -/
def get_urls_api (resolver : String → Option String) (companyList : List String) :
    List (Option String) :=
  (companyList.map resolver).map (fun r =>
    match r with
    | some url => if url = "" then none else some url
    | none => none)

/-! ### MX validator (`check_mx_records`, get_email.py) -/

/-- `check_mx_records` from get_email.py. `dnsResolve` is the DNS oracle:
`some n` means `dns.resolver.resolve(domain, 'MX')` returned an answer
with `n` records, `none` means it raised (NXDOMAIN, timeout, no answer,
malformed domain). A missing `'@'` makes `email.split('@')[1]` raise
`IndexError`; the bare `except` turns every raise into `False`. -/
def check_mx_records (dnsResolve : String → Option Nat) (email : String) : Bool :=
  match (pySplit email '@').get? 1 with
  | none => false
  | some domain =>
    match dnsResolve domain with
    | none => false
    | some n => decide (0 < n)

/-! ### Email regex scan (get_email.py)

`EMAIL_REGEX = r'[a-zA-Z0-9._%+-]+@[a-zA-z0-9.-]+\.[a-zA-Z]{2,}'` applied
with `re.findall`. Note the source's `a-zA-z` range in the domain class:
it spans codepoints 65..122, so it also admits `[ \ ] ^ _` and the
backquote. Backtracking is deterministic here: the local part is the
maximal run of local characters (nothing can be given back because `@` is
not a local character), the domain run is maximal, and the engine then
picks the rightmost dot inside the run that is followed by at least two
letters, with a maximal letter run as the top-level-domain part. -/

/-- Characters of the local-part class `[a-zA-Z0-9._%+-]`. -/
def isLocalChar (c : Char) : Bool :=
  c.isAlpha || c.isDigit || c == '.' || c == '_' || c == '%' || c == '+' || c == '-'

/-- Characters of the domain class `[a-zA-z0-9.-]` (codepoints 65..122,
digits, dot, hyphen). -/
def isDomChar (c : Char) : Bool :=
  decide (65 ≤ c.toNat ∧ c.toNat ≤ 122) || c.isDigit || c == '.' || c == '-'

/-- Split the domain run at the rightmost `'.'` that is followed by at
least two ASCII letters: returns `(d, tld, rem)` with
`run = d ++ '.' :: tld ++ rem`, where `tld` is the maximal letter run
after the dot. -/
def splitLastDot : List Char → Option (List Char × List Char × List Char)
  | [] => none
  | c :: cs =>
    match splitLastDot cs with
    | some (d, tld, rem) => some (c :: d, tld, rem)
    | none =>
      if c == '.' then
        let tld := cs.takeWhile Char.isAlpha
        if 2 ≤ tld.length then some ([], tld, cs.drop tld.length) else none
      else none

/-- Attempt an `EMAIL_REGEX` match anchored at the head of `s`; on success
return the matched text and the remaining input after the match. The
part before the dot (`d`) must be nonempty because `[a-zA-z0-9.-]+`
consumes at least one character. -/
def matchEmailAt (s : List Char) : Option (List Char × List Char) :=
  let lp := s.takeWhile isLocalChar
  if lp.isEmpty then none
  else
    match s.dropWhile isLocalChar with
    | '@' :: rest =>
      let run := rest.takeWhile isDomChar
      let after := rest.dropWhile isDomChar
      match splitLastDot run with
      | some (d, tld, rem) =>
        if d.isEmpty then none
        else some (lp ++ '@' :: (d ++ '.' :: tld), rem ++ after)
      | none => none
    | _ => none

/-- `re.findall(EMAIL_REGEX, s)`: scan left to right, restart after each
match, advance one character after a failed attempt. `fuel` bounds the
recursion; every step consumes at least one character, so starting the
fuel at `s.length` never exhausts it. -/
def findAllEmails : Nat → List Char → List (List Char)
  | 0, _ => []
  | _ + 1, [] => []
  | fuel + 1, c :: cs =>
    match matchEmailAt (c :: cs) with
    | some (m, rest) => m :: findAllEmails fuel rest
    | none => findAllEmails fuel cs

/-! ### De-obfuscation (get_email.py) -/

/-- Python `s.replace(pat, rep)`: replace every non-overlapping occurrence
left to right. `fuel` bounds the recursion (the patterns used are
nonempty, so each step consumes at least one character). -/
def replaceAll : Nat → List Char → List Char → List Char → List Char
  | 0, _, _, s => s
  | _ + 1, _, _, [] => []
  | fuel + 1, pat, rep, c :: cs =>
    if pat.isPrefixOf (c :: cs) && !pat.isEmpty then
      rep ++ replaceAll fuel pat rep ((c :: cs).drop pat.length)
    else
      c :: replaceAll fuel pat rep cs

/-- Python `s.replace(pat, rep)` on strings. -/
def pyReplace (s pat rep : String) : String :=
  ⟨replaceAll s.data.length pat.data rep.data s.data⟩

/-- The de-obfuscation chain of `extract_valid_emails`:
`html.replace(' [at] ', '@').replace('(at)', '@').replace(' at ', '@')`. -/
def deobfuscate (html : String) : String :=
  pyReplace (pyReplace (pyReplace html " [at] " "@") "(at)" "@") " at " "@"

/-! ### tldextract model

`extract_valid_emails` calls `tldextract.extract(current_url).domain`.
The external library parses the URL's host and splits it against the
public-suffix list; it is modelled here over a fixed fragment of that
list and the `scheme://host/path` URL shapes the pipeline produces.
When no known suffix matches, the registrable domain is the last label,
as tldextract does. -/

/-- Fragment of the public-suffix list, as label sequences. -/
def publicSuffixes : List (List String) :=
  [ ["com"], ["org"], ["net"], ["io"], ["edu"], ["gov"], ["de"], ["ai"],
    ["uk"], ["co", "uk"]]

/-- Length (in labels) of the longest known public suffix ending `labels`. -/
def suffixLen (labels : List String) : Nat :=
  publicSuffixes.foldl
    (fun acc suf => if suf.isSuffixOf labels then max acc suf.length else acc) 0

/-- Registrable-domain label of a host (`tldextract.extract(h).domain`):
the label just before the longest matching public suffix, the last label
when no suffix matches, empty when the whole host is a suffix. -/
def tldDomain (host : String) : String :=
  let ls := pySplit host '.' 
  let k := suffixLen ls
  if k + 1 ≤ ls.length then (ls.get? (ls.length - k - 1)).getD "" else ""

/-- First occurrence search: the rest of `s` after the first occurrence of
`pat`, or `none` when `pat` does not occur. -/
def afterSub (pat : List Char) : List Char → Option (List Char)
  | [] => none
  | c :: cs =>
    if pat.isPrefixOf (c :: cs) then some ((c :: cs).drop pat.length)
    else afterSub pat cs

/-- Host portion of a URL as tldextract sees it: strip the scheme, cut the
authority at `/`, `?` or `#`, strip userinfo and port. -/
def hostOf (url : String) : String :=
  let noScheme := (afterSub "://".data url.data).getD url.data
  let authority := noScheme.takeWhile (fun c => !(c == '/' || c == '?' || c == '#'))
  let hostPort := ((pySplit (⟨authority⟩ : String) '@').getLastD "").data
  ⟨hostPort.takeWhile (fun c => !(c == ':'))⟩

/-- `site_name = tldextract.extract(current_url).domain.lower()`. -/
def siteName (url : String) : String :=
  lowerStr (tldDomain (hostOf url))

/-! ### extract_valid_emails (get_email.py) -/

/-- `BAD_EXTENSIONS` from get_email.py. -/
def BAD_EXTENSIONS : List String :=
  [ ".png", ".jpg", ".jpeg", ".gif", ".css", ".js", ".svg", ".webp"]

/-- Python `email.endswith(BAD_EXTENSIONS)` (tuple argument: any suffix). -/
def endsWithBad (e : String) : Bool :=
  BAD_EXTENSIONS.any (fun ext => endsWith e ext)

/-- Python `email.split('@')[1]`: the piece between the first and second
`'@'`. Regex matches always contain exactly one `'@'`, so the piece
exists there. -/
def afterAt (e : String) : String :=
  ((pySplit e '@').get? 1).getD ""

/-- `found.add(email)` on the insertion-ordered list representing the
Python set `found` (the set's iteration order is arbitrary; this list
models its contents, with insertion order standing in for it). -/
def insertFound (found : List String) (e : String) : List String :=
  if e ∈ found then found else found ++ [e]

/-- The filter body of the `for email in raw_emails` loop: lowercase,
drop bad extensions, drop overlong matches, keep when `site_name` occurs
in the text after the `'@'`. -/
def filterStep (site : String) (found : List String) (m : String) : List String :=
  let e := lowerStr m
  if endsWithBad e then found
  else if 50 < e.length then found
  else if containsSub (afterAt e) site then insertFound found e
  else found

/-- `raw_emails = re.findall(EMAIL_REGEX, html)` after de-obfuscation. -/
def rawEmailMatches (html : String) : List String :=
  let h := deobfuscate html
  (findAllEmails h.data.length h.data).map (fun m => (⟨m⟩ : String))

/-- `extract_valid_emails` from get_email.py. -/
def extract_valid_emails (html currentUrl : String) : List String :=
  (rawEmailMatches html).foldl (filterStep (siteName currentUrl)) []

/-! ### Link selector (the anchor loop of `_scrape_sync_email`, get_email.py) -/

/-- One `<a href=...>` element as BeautifulSoup presents it:
`a.text` and `a['href']`. -/
structure Anchor where
  text : String
  href : String

/-- `TARGET_KEYWORDS` from get_email.py. -/
def TARGET_KEYWORDS : List String :=
  [ "contact", "contact us", "support", "about", "about us", "connect",
    "reach", "help"]

/-- The loop guard:
`any(key in text for key in TARGET_KEYWORDS) or any(key in href for key in TARGET_KEYWORDS)`
on the lowercased text and href. -/
def isKeywordAnchor (a : Anchor) : Bool :=
  TARGET_KEYWORDS.any (fun k => containsSub (lowerStr a.text) k) ||
  TARGET_KEYWORDS.any (fun k => containsSub (lowerStr a.href) k)

/-- The break guard: `'contact' in text or 'contact' in href`. -/
def isContactAnchor (a : Anchor) : Bool :=
  containsSub (lowerStr a.text) "contact" || containsSub (lowerStr a.href) "contact"

/-- Scheme plus authority of a URL (e.g. `https://acme.io` of
`https://acme.io/a/b`). -/
def schemeAndHost (base : String) : String :=
  match afterSub "://".data base.data with
  | some rest =>
    ⟨base.data.take (base.data.length - rest.length) ++
      rest.takeWhile (fun c => !(c == '/' || c == '?' || c == '#'))⟩
  | none => ""

/-- Modelled external library (`urllib.parse.urljoin`) over the URL shapes
the pipeline exercises: an absolute `rel` (containing `://`) wins, a
root-relative `rel` (leading `/`) is attached to the base's scheme and
authority, any other `rel` replaces the base's last path segment. -/
def urljoin (base rel : String) : String :=
  if (afterSub "://".data rel.data).isSome then rel
  else if rel.data.head? == some '/' then schemeAndHost base ++ rel
  else ⟨(base.data.reverse.dropWhile (fun c => !(c == '/'))).reverse⟩ ++ rel

/-- The `for a in soup.find_all('a', href=True)` loop: every keyword
anchor overwrites `target_link` with its href resolved against the final
URL; a contact anchor breaks out of the loop immediately after the
overwrite. -/
def selectGo (finalUrl : String) (best : Option String) : List Anchor → Option String
  | [] => best
  | a :: rest =>
    if isKeywordAnchor a then
      let tl := urljoin finalUrl a.href
      if isContactAnchor a then some tl
      else selectGo finalUrl (some tl) rest
    else selectGo finalUrl best rest

/-- The link-selection stage of `_scrape_sync_email`: `target_link`
starts as `None`. -/
def selectTargetLink (finalUrl : String) (anchors : List Anchor) : Option String :=
  selectGo finalUrl none anchors

/-- The selection policy as the specification words it, for comparison
with `selectTargetLink`: the first contact anchor when one exists,
otherwise the last keyword anchor, otherwise absence; the chosen href is
resolved against the base URL. -/
def linkChoiceSpec (finalUrl : String) (anchors : List Anchor) : Option String :=
  match anchors.find? isContactAnchor with
  | some a => some (urljoin finalUrl a.href)
  | none =>
    match anchors.reverse.find? isKeywordAnchor with
    | some a => some (urljoin finalUrl a.href)
    | none => none

/-! ### Site scraper (`_scrape_sync_email`, get_email.py) -/

/-- A network request made by the scraper: the homepage fetch or the
secondary-page fetch. -/
inductive FetchEv where
  | home (url : String)
  | page (url : String)
deriving DecidableEq

/-- The scraper's external world: `fetchHome u` is
`session.get(u).text, .url` (`none` on a transport error), `anchors h`
is BeautifulSoup's anchor list for the homepage HTML, `fetchPage t` is
the secondary `session.get(t).text` (`none` on a transport error), and
`dns` is the MX-record oracle consumed by `check_mx_records`. -/
structure ScrapeEnv where
  fetchHome : String → Option (String × String)
  anchors : String → List Anchor
  fetchPage : String → Option String
  dns : String → Option Nat

/-- `_scrape_sync_email` from get_email.py, returning the result together
with the list of network fetches attempted. An absent (`None`/NaN, via
`pd.isna`) or empty URL returns before any fetch; a homepage transport
error returns after the homepage attempt only; a secondary-page
transport error keeps the (empty) homepage candidate list; the first
candidate is gated by `check_mx_records`, and a failed gate returns
`None`, indistinguishable from the no-candidate outcome. -/
def scrape_sync_email (websiteUrl : Option String) (env : ScrapeEnv) :
    Option String × List FetchEv :=
  match websiteUrl with
  | none => (none, [])
  | some u =>
    if u = "" then (none, [])
    else
      match env.fetchHome u with
      | none => (none, [ FetchEv.home u])
      | some (html, finalUrl) =>
        let emails := extract_valid_emails html finalUrl
        let step2 : List String × List FetchEv :=
          if emails.isEmpty then
            match selectTargetLink finalUrl (env.anchors html) with
            | none => (emails, [])
            | some target =>
              match env.fetchPage target with
              | none => (emails, [ FetchEv.page target])
              | some html2 => (extract_valid_emails html2 finalUrl, [ FetchEv.page target])
          else (emails, [])
        match step2 with
        | (finalEmails, log2) =>
          match finalEmails with
          | [] => (none, FetchEv.home u :: log2)
          | cand :: _ =>
            (if check_mx_records env.dns cand then some cand else none,
              FetchEv.home u :: log2)

/-! ### Helper lemmas -/

theorem containsSub_empty (hay : String) : containsSub hay "" = true :=
  listSub_nil hay.data

theorem contact_isKeyword {a : Anchor} (h : isContactAnchor a = true) :
    isKeywordAnchor a = true := by
  unfold isContactAnchor at h
  unfold isKeywordAnchor TARGET_KEYWORDS
  rcases Bool.or_eq_true_iff.mp h with h1 | h1 <;> simp [List.any_cons, h1]

/-- `findMatchGo` is the first-match scan: it returns the domain of the
first suggestion accepted by rule 1 or rule 2. -/
theorem findMatchGo_eq_find (q : String) (l : List Suggestion) :
    findMatchGo q l =
      (l.find? (matchesItem q)).map (fun it => "https://" ++ it.domain) := by
  induction l with
  | nil => rfl
  | cons item rest ih =>
    by_cases h1 : rule1 q item = true
    · have hm : matchesItem q item = true := by simp [matchesItem, h1]
      simp [findMatchGo, h1, List.find?_cons_of_pos _ hm]
    · by_cases h2 : rule2 q item = true
      · have hm : matchesItem q item = true := by simp [matchesItem, h2]
        simp [findMatchGo, h1, h2, List.find?_cons_of_pos _ hm]
      · have hm : ¬ matchesItem q item = true := by
          simp [matchesItem, h1, h2]
        simp [findMatchGo, h1, h2, List.find?_cons_of_neg _ hm, ih]

theorem char_toNat_ofNat (n : Nat) (h : n < 55296) : (Char.ofNat n).toNat = n := by
  unfold Char.ofNat
  rw [dif_pos (Or.inl h)]
  rfl

theorem toLower_eq (c : Char) :
    c.toLower = if 65 ≤ c.toNat ∧ c.toNat ≤ 90 then Char.ofNat (c.toNat + 32) else c :=
  rfl

theorem toLower_toLower (c : Char) : c.toLower.toLower = c.toLower := by
  by_cases h : 65 ≤ c.toNat ∧ c.toNat ≤ 90
  · have e1 : c.toLower = Char.ofNat (c.toNat + 32) := by
      rw [toLower_eq, if_pos h]
    have h2 : (Char.ofNat (c.toNat + 32)).toNat = c.toNat + 32 :=
      char_toNat_ofNat _ (by omega)
    have hneg : ¬ (65 ≤ (Char.ofNat (c.toNat + 32)).toNat ∧
        (Char.ofNat (c.toNat + 32)).toNat ≤ 90) := by
      rw [h2]; omega
    rw [e1, toLower_eq, if_neg hneg]
  · have e1 : c.toLower = c := by rw [toLower_eq, if_neg h]
    rw [e1, e1]

theorem lowerStr_idem (s : String) : lowerStr (lowerStr s) = lowerStr s := by
  unfold lowerStr
  apply congrArg
  show (s.data.map Char.toLower).map Char.toLower = s.data.map Char.toLower
  rw [List.map_map]
  exact List.map_congr_left fun c _ => toLower_toLower c

theorem mem_insertFound (acc : List String) (e x : String) :
    x ∈ insertFound acc e ↔ x ∈ acc ∨ x = e := by
  unfold insertFound
  by_cases h : e ∈ acc
  · rw [if_pos h]
    exact ⟨Or.inl, fun hx => hx.elim id (fun he => he ▸ h)⟩
  · rw [if_neg h]
    simp [List.mem_append]

theorem mem_filterStep (site : String) (acc : List String) (m x : String) :
    x ∈ filterStep site acc m ↔ x ∈ acc ∨
      (x = lowerStr m ∧ endsWithBad (lowerStr m) = false ∧
        (lowerStr m).length ≤ 50 ∧
        containsSub (afterAt (lowerStr m)) site = true) := by
  unfold filterStep
  by_cases h1 : endsWithBad (lowerStr m) = true
  · simp [h1]
  · by_cases h2 : 50 < (lowerStr m).length
    · simp [h1, h2]
    · have hle : (lowerStr m).length ≤ 50 := Nat.not_lt.mp h2
      by_cases h3 : containsSub (afterAt (lowerStr m)) site = true
      · simp [h1, h2, h3, hle, mem_insertFound]
      · simp [h1, h2, h3]

theorem mem_foldl_filterStep (site : String) :
    ∀ (raw acc : List String) (x : String),
      x ∈ raw.foldl (filterStep site) acc ↔ x ∈ acc ∨
        ∃ m ∈ raw, x = lowerStr m ∧ endsWithBad (lowerStr m) = false ∧
          (lowerStr m).length ≤ 50 ∧
          containsSub (afterAt (lowerStr m)) site = true
  | [], acc, x => by simp
  | m :: rest, acc, x => by
    rw [List.foldl_cons, mem_foldl_filterStep site rest _ x, mem_filterStep]
    simp only [List.mem_cons]
    constructor
    · rintro ((hx | hx) | ⟨m2, hm2, hx⟩)
      · exact Or.inl hx
      · exact Or.inr ⟨m, Or.inl rfl, hx⟩
      · exact Or.inr ⟨m2, Or.inr hm2, hx⟩
    · rintro (hx | ⟨m2, (rfl | hm2), hx⟩)
      · exact Or.inl (Or.inl hx)
      · exact Or.inl (Or.inr hx)
      · exact Or.inr ⟨m2, hm2, hx⟩

/-- Membership in the extractor's result: exactly the lowercased regex
matches that pass the extension filter, the length filter, and the raw
substring test of the site name against the text after `'@'`. -/
theorem mem_extract_iff (html url x : String) :
    x ∈ extract_valid_emails html url ↔
      ∃ m ∈ rawEmailMatches html, x = lowerStr m ∧ endsWithBad x = false ∧
        x.length ≤ 50 ∧ containsSub (afterAt x) (siteName url) = true := by
  unfold extract_valid_emails
  rw [mem_foldl_filterStep]
  simp only [List.not_mem_nil, false_or]
  constructor
  · rintro ⟨m, hm, rfl, h⟩
    exact ⟨m, hm, rfl, h⟩
  · rintro ⟨m, hm, rfl, h⟩
    exact ⟨m, hm, rfl, h⟩

/-! ### The claims -/

/-- Claim C5: `get_urls_api` returns one slot per input name, and slot `i`
holds exactly the resolver's result for name `i` (with the `if url:`
truthiness guard), whichever lookups failed. -/
theorem claim_C5 (resolver : String → Option String) (companyList : List String) :
    (get_urls_api resolver companyList).length = companyList.length ∧
    ∀ i, (get_urls_api resolver companyList).get? i =
      (companyList.get? i).map (fun name =>
        match resolver name with
        | some url => if url = "" then none else some url
        | none => none) := by
  constructor
  · simp [get_urls_api]
  · intro i
    simp [get_urls_api, List.get?_eq_getElem?, List.getElem?_map, Option.map_map]
    rfl

/-- Claim C7: the suggestion client returns absence on a transport error,
a non-200 status, malformed or absent JSON, or an empty result list; the
bare `except` means it never raises (the embedding is a total function). -/
theorem claim_C7 (name : String) (status : Nat) (body : Option (List Suggestion)) :
    sync_clearbit name ApiResult.transportError = none ∧
    (status ≠ 200 → sync_clearbit name (ApiResult.response status body) = none) ∧
    sync_clearbit name (ApiResult.response status none) = none ∧
    sync_clearbit name (ApiResult.response status (some [])) = none := by
  refine ⟨rfl, fun h => by simp [sync_clearbit, h], ?_, ?_⟩
  · by_cases h : status = 200 <;> simp [sync_clearbit, h]
  · by_cases h : status = 200 <;> simp [sync_clearbit, h, findMatch, findMatchGo]

/-- Claim C7 witness: a concrete 404 response yields absence. -/
theorem claim_C7_witness :
    sync_clearbit "Acme" (ApiResult.response 404 (some [⟨"acme.io", "Acme"⟩])) = none :=
  (claim_C7 "Acme" 404 (some [⟨"acme.io", "Acme"⟩])).2.1 (by decide)

/-- Claim C8: `check_mx_records` never raises (it is total), returns true
exactly when the DNS oracle answers with at least one MX record for the
text between the first and second `'@'`, and false on any resolution
failure or malformed input (no `'@'` at all). -/
theorem claim_C8 (dnsResolve : String → Option Nat) (email : String) :
    check_mx_records dnsResolve email = true ↔
      ∃ domain n, (pySplit email '@').get? 1 = some domain ∧
        dnsResolve domain = some n ∧ 0 < n := by
  unfold check_mx_records
  cases h : (pySplit email '@').get? 1 with
  | none => simp [h]
  | some domain =>
    cases h2 : dnsResolve domain with
    | none => simp [h, h2]
    | some n => simp [h, h2]

/-- Claim C6: a company name whose normalization is empty (the empty name
included) trivially passes rule 1 against any candidate, so the matcher
returns the first candidate's domain instead of absence. -/
theorem claim_C6 :
    clean_name "" = "" ∧
    ∀ name d ds, clean_name name = "" →
      findMatch name (d :: ds) = some ("https://" ++ d.domain) := by
  refine ⟨rfl, fun name d ds h => ?_⟩
  have h1 : rule1 (clean_name name) d = true := by
    rw [h]; exact containsSub_empty _
  simp [findMatch, findMatchGo, h1]

/-- Claim C6 witness: "Ltd." normalizes to the empty string and spuriously
matches the first candidate. -/
theorem claim_C6_witness :
    clean_name "Ltd." = "" ∧
    findMatch "Ltd." [⟨"acme.io", "Acme"⟩] = some ("https://" ++ "acme.io") :=
  ⟨by decide, claim_C6.2 "Ltd." ⟨"acme.io", "Acme"⟩ [] (by decide)⟩

/-- Claim C1: the matcher scans the suggestion list in order over at most
its first 3 items; the first candidate accepted by rule 1 or rule 2 wins
and its domain is returned behind `https://`; with no such candidate the
result is absence. (Rule 1 is evaluated before rule 2 per candidate in
`findMatchGo`, mirroring the source's `if`/`if` order; the returned value
is the candidate's domain under either rule.) -/
theorem claim_C1 (name : String) (data : List Suggestion) :
    findMatch name data = findMatch name (data.take 3) ∧
    (∀ url, findMatch name data = some url ↔
      ∃ pre item post, data.take 3 = pre ++ item :: post ∧
        (∀ x ∈ pre, matchesItem (clean_name name) x = false) ∧
        matchesItem (clean_name name) item = true ∧
        url = "https://" ++ item.domain) ∧
    (findMatch name data = none ↔
      ∀ item ∈ data.take 3, matchesItem (clean_name name) item = false) := by
  refine ⟨by simp [findMatch, List.take_take], ?_, ?_⟩
  · intro url
    rw [findMatch, findMatchGo_eq_find]
    constructor
    · intro h
      rcases Option.map_eq_some'.mp h with ⟨item, hfind, hurl⟩
      rcases List.find?_eq_some.mp hfind with ⟨hp, pre, post, hsplit, hpre⟩
      exact ⟨pre, item, post, hsplit, fun x hx => by simpa using hpre x hx, hp,
        hurl.symm⟩
    · rintro ⟨pre, item, post, hsplit, hpre, hitem, rfl⟩
      apply Option.map_eq_some'.mpr
      exact ⟨item, List.find?_eq_some.mpr
        ⟨hitem, pre, post, hsplit, fun x hx => by simp [hpre x hx]⟩, rfl⟩
  · rw [findMatch, findMatchGo_eq_find]
    simp [Option.map_eq_none', List.find?_eq_none]

/-- The anchor loop, started with any accumulated best link, returns the
first contact link when a contact anchor exists, otherwise the last
keyword link, otherwise the accumulated best. -/
theorem selectGo_spec (finalUrl : String) (l : List Anchor) :
    ∀ best, selectGo finalUrl best l =
      match l.find? isContactAnchor with
      | some a => some (urljoin finalUrl a.href)
      | none =>
        match l.reverse.find? isKeywordAnchor with
        | some a => some (urljoin finalUrl a.href)
        | none => best := by
  induction l with
  | nil => intro best; rfl
  | cons a rest ih =>
    intro best
    by_cases hk : isKeywordAnchor a = true
    · by_cases hc : isContactAnchor a = true
      · simp [selectGo, hk, hc, List.find?_cons_of_pos _ hc]
      · have hstep : selectGo finalUrl best (a :: rest) =
            selectGo finalUrl (some (urljoin finalUrl a.href)) rest := by
          simp [selectGo, hk, hc]
        rw [hstep, ih, List.find?_cons_of_neg _ hc]
        simp only [List.reverse_cons, List.find?_append]
        cases hfc : rest.find? isContactAnchor with
        | some c => simp
        | none =>
          cases hkw : rest.reverse.find? isKeywordAnchor with
          | some k => simp [Option.or]
          | none => simp [Option.or, List.find?_cons_of_pos _ hk]
    · have hc : ¬ isContactAnchor a = true := fun h => hk (contact_isKeyword h)
      have hstep : selectGo finalUrl best (a :: rest) = selectGo finalUrl best rest := by
        simp [selectGo, hk]
      rw [hstep, ih, List.find?_cons_of_neg _ hc]
      simp only [List.reverse_cons, List.find?_append]
      cases hfc : rest.find? isContactAnchor with
      | some c => simp
      | none =>
        cases hkw : rest.reverse.find? isKeywordAnchor with
        | some k => simp [Option.or]
        | none => simp [Option.or, List.find?_cons_of_neg _ hk]

/-- Claim C4: the link selector equals the stated policy — first contact
anchor in scan order if any (regardless of other keyword anchors), else
the last keyword anchor (later matches overwrite earlier ones), else
absence, with the chosen href resolved against the base URL; checked also
on the spec's example in both array orders. -/
theorem claim_C4 (finalUrl : String) (anchors : List Anchor) :
    selectTargetLink finalUrl anchors = linkChoiceSpec finalUrl anchors ∧
    selectTargetLink "https://ex.com/"
      [⟨"About", "/about"⟩, ⟨"Contact Us", "/contact"⟩] =
      some "https://ex.com/contact" ∧
    selectTargetLink "https://ex.com/"
      [⟨"Contact Us", "/contact"⟩, ⟨"About", "/about"⟩] =
      some "https://ex.com/contact" := by
  refine ⟨?_, by decide, by decide⟩
  rw [selectTargetLink, selectGo_spec, linkChoiceSpec]

/-- Claim C9: extraction is a pure function of the HTML text and the page
URL, so two runs on identical inputs yield identical result sets; this is
definitional in the embedding (the Python function reads no other state,
and set-iteration order does not affect set contents). -/
theorem claim_C9 (html url : String) :
    ∀ e, e ∈ extract_valid_emails html url ↔ e ∈ extract_valid_emails html url :=
  fun _ => Iff.rfl

/-- Claim C2 counterexample: the code keeps `user@acme.io.example.com` on
page `https://acme.io/` because the raw substring test `'acme' in
'acme.io.example.com'` passes, although the public-suffix-aware
registrable domain of the candidate's email domain (`example`) does not
contain the site's registrable domain (`acme`), so the claim's filter
would discard it. -/
theorem claim_C2_counterexample :
    extract_valid_emails "reach us: user@acme.io.example.com thanks"
      "https://acme.io/" = [ "user@acme.io.example.com"] ∧
    containsSub (tldDomain (afterAt "user@acme.io.example.com"))
      (siteName "https://acme.io/") = false := by
  constructor
  · decide
  · decide

/-- Claim C2 (amended): every returned candidate is lowercased, does not
end with a known non-email file extension, is at most 50 characters
long, and its full email-domain string (the part after `'@'`) contains
the site's registrable domain name as a raw substring (the code applies
no public-suffix parsing on the email side); on page `https://acme.io/`
the candidate jane@acme.io survives while support@unrelated.com and the
image@2x.png-shaped match are discarded. -/
theorem claim_C2 (html url e : String) :
    (e ∈ extract_valid_emails html url →
      lowerStr e = e ∧ endsWithBad e = false ∧ e.length ≤ 50 ∧
      containsSub (afterAt e) (siteName url) = true) ∧
    extract_valid_emails
      "<p>contact us at jane [at] acme.io or support@unrelated.com</p><img src=x/image@2x.png>"
      "https://acme.io/" = [ "jane@acme.io"] := by
  constructor
  · intro h
    rcases (mem_extract_iff html url e).mp h with ⟨m, _, he, h1, h2, h3⟩
    exact ⟨by rw [he, lowerStr_idem], h1, h2, h3⟩
  · decide

/-- Claim C2 witness: the surviving candidate of the concrete page
satisfies all four amended filter conditions. -/
theorem claim_C2_witness :
    lowerStr "jane@acme.io" = "jane@acme.io" ∧
    endsWithBad "jane@acme.io" = false ∧
    ( "jane@acme.io" : String).length ≤ 50 ∧
    containsSub (afterAt "jane@acme.io") (siteName "https://acme.io/") = true :=
  (claim_C2
    "<p>contact us at jane [at] acme.io or support@unrelated.com</p><img src=x/image@2x.png>"
    "https://acme.io/" "jane@acme.io").1 (by decide)

/-- Claim C10: a candidate is kept exactly when it is a lowercased regex
match passing the extension and length filters whose full domain string
after `'@'` contains the site's domain label as a raw substring; hence a
subdomain address passes, and `user@acme.io.example.com` — whose
registrable domain (`example`) differs from the site's (`acme`) — is
returned on site `https://acme.io/`. -/
theorem claim_C10 (html url e : String) :
    (e ∈ extract_valid_emails html url ↔
      ∃ m ∈ rawEmailMatches html, e = lowerStr m ∧ endsWithBad e = false ∧
        e.length ≤ 50 ∧ containsSub (afterAt e) (siteName url) = true) ∧
    "user@mail.acme.io" ∈
      extract_valid_emails "write to user@mail.acme.io today" "https://acme.io/" ∧
    "user@acme.io.example.com" ∈
      extract_valid_emails "write to user@acme.io.example.com today"
        "https://acme.io/" ∧
    tldDomain (afterAt "user@acme.io.example.com") ≠ siteName "https://acme.io/" := by
  refine ⟨mem_extract_iff html url e, ?_, ?_, ?_⟩
  · decide
  · decide
  · decide

/-- Claim C3: the site scraper returns absence with no fetch when the URL
is absent or empty; returns absence after only the homepage attempt when
the homepage fetch fails; and when candidates exist whose first fails MX
validation it returns absence — the same return value as when no
candidates were found. -/
theorem claim_C3 (env : ScrapeEnv) :
    scrape_sync_email none env = (none, []) ∧
    scrape_sync_email (some "") env = (none, []) ∧
    (∀ u, u ≠ "" → env.fetchHome u = none →
      scrape_sync_email (some u) env = (none, [ FetchEv.home u])) ∧
    (∀ u html finalUrl, u ≠ "" →
      env.fetchHome u = some (html, finalUrl) →
      extract_valid_emails html finalUrl ≠ [] →
      check_mx_records env.dns
        ((extract_valid_emails html finalUrl).headD "") = false →
      (scrape_sync_email (some u) env).1 = none) ∧
    (∀ u html finalUrl, u ≠ "" →
      env.fetchHome u = some (html, finalUrl) →
      extract_valid_emails html finalUrl = [] →
      selectTargetLink finalUrl (env.anchors html) = none →
      scrape_sync_email (some u) env = (none, [ FetchEv.home u])) := by
  refine ⟨rfl, rfl, ?_, ?_, ?_⟩
  · intro u hu hfail
    simp [scrape_sync_email, hu, hfail]
  · intro u html finalUrl hu hhome hne hmx
    cases hem : extract_valid_emails html finalUrl with
    | nil => exact absurd hem hne
    | cons cand tl =>
      rw [hem] at hmx
      simp only [List.headD_cons] at hmx
      simp [scrape_sync_email, hu, hhome, hem, hmx]
  · intro u html finalUrl hu hhome hem hsel
    simp [scrape_sync_email, hu, hhome, hem, hsel]

/-- Claim C3 witness: a failing homepage fetch yields absence with no
secondary fetch, and a concrete page whose only candidate fails MX
validation yields absence. -/
theorem claim_C3_witness :
    scrape_sync_email (some "https://acme.io")
      ⟨fun _ => none, fun _ => [], fun _ => none, fun _ => none⟩ =
      (none, [ FetchEv.home "https://acme.io"]) ∧
    (scrape_sync_email (some "https://acme.io")
      ⟨fun _ => some ("hi jane [at] acme.io bye", "https://acme.io/"),
        fun _ => [], fun _ => none, fun _ => none⟩).1 = none :=
  ⟨(claim_C3 ⟨fun _ => none, fun _ => [], fun _ => none, fun _ => none⟩).2.2.1
      "https://acme.io" (by decide) rfl,
    (claim_C3 ⟨fun _ => some ("hi jane [at] acme.io bye", "https://acme.io/"),
        fun _ => [], fun _ => none, fun _ => none⟩).2.2.2.1
      "https://acme.io" "hi jane [at] acme.io bye" "https://acme.io/"
      (by decide) rfl (by decide) (by decide)⟩

end Scraper

